import Mathlib

/-!
Shallow embedding of the metronome repository (src/main.rs, src/player.rs).

Audio samples are `f32` in the source; they are embedded as exact rationals
(`ℚ`), since every claim under study concerns the control structure of the
code (index arithmetic, clipping, enumeration of repetitions, gating) and
not floating-point rounding.  The transcendental operations (`powf`, `sin`,
`tanh`) have no exact executable counterpart; where a claim depends on one
(`geometric_mean`, the click envelope) it is embedded over `ℝ`, and the
soft-clip map of the render callback is an explicit function parameter.

Rust `usize` arithmetic is embedded as `ℕ` (`saturating_sub` is Lean's
truncated subtraction), `isize` as `ℤ`.  A Rust panic (integer division by
zero, slice index out of range) is modelled by returning `none`.
-/

/-- Result type of `Playback::read` (src/player.rs, `ReadResult`). -/
inductive ReadResult where
  | Ok
  | NotYetStarted
  | Ended
deriving DecidableEq, Repr

/-- Struct `Playback` (src/player.rs).  The shared `Arc<Vec<f32>>` of samples is
embedded as a plain list of rationals. -/
structure Playback where
  start : Nat
  repetition_period : Nat
  repetition_count : Option Nat
  samples : List ℚ
deriving DecidableEq, Repr

/-- Constructor `Playback::new` (src/player.rs): zero start, zero repetition period,
unbounded repetition count. -/
def Playback.new (samples : List ℚ) : Playback :=
  { start := 0, repetition_period := 0, repetition_count := none, samples := samples }

/-- Builder `Playback::offset` (src/player.rs). -/
def Playback.offset (p : Playback) (offset : Nat) : Playback :=
  { p with start := offset }

/-- Builder `Playback::repeat` (src/player.rs). -/
def Playback.repeat (p : Playback) (period : Nat) (count : Option Nat) : Playback :=
  { p with repetition_period := period, repetition_count := count }

/-- Method `Playback::end` (src/player.rs); named `endTime` because `end` is a Lean
keyword: `start + samples.len() + repetition_period * repetition_count`,
defined only for finite repetition counts. -/
def Playback.endTime (p : Playback) : Option Nat :=
  p.repetition_count.map (fun c => p.start + p.samples.length + p.repetition_period * c)

/-- Embedding of `dst.iter_mut().zip(src.iter()).for_each(|(d, s)| *d += *s)`
(src/player.rs, `Playback::read_sample`): elementwise addition over the
common prefix, keeping the leftover tail of `dst`. -/
def zipAdd : List ℚ → List ℚ → List ℚ
  | d, [] => d
  | [], _ => []
  | d :: ds, s :: ss => (d + s) :: zipAdd ds ss

/-- Method `Playback::read_sample` (src/player.rs).  `(-t).clamp(0, hi)` with
`hi ≥ 0` equals `(min t hi).toNat` of the negated argument; the two slice
offsets are clamped exactly as in the source, so the slicing never panics. -/
def Playback.read_sample (p : Playback) (time_offset : Int) (output : List ℚ) : List ℚ :=
  List.take (min time_offset (output.length : Int)).toNat output ++
    zipAdd (List.drop (min time_offset (output.length : Int)).toNat output)
      (List.drop (min (-time_offset) (p.samples.length : Int)).toNat p.samples)

/-- The repetition loop of `Playback::read` (src/player.rs lines 61-70).
The source keeps the repetition index `rep` and recomputes
`rep_time = start + rep * repetition_period`; stepping `rep` by one steps
`rep_time` by `repetition_period`, which is the form used here so that the
measure `time_end - rep_time` decreases.  The `repetition_period = 0` guard
is never exercised by `Playback.read`, which models the division-by-zero
panic before reaching the loop; it only makes the recursion total. -/
def Playback.readLoop (p : Playback) (time time_end rep_time : Nat) (buffer : List ℚ) :
    List ℚ :=
  if p.repetition_period = 0 ∨ time_end ≤ rep_time then buffer
  else
    Playback.readLoop p time time_end (rep_time + p.repetition_period)
      (p.read_sample ((rep_time : Int) - (time : Int)) buffer)
termination_by time_end - rep_time
decreasing_by omega

/-- Boolean guard of `matches!(self.end(), Some(end) if time > end)`
(src/player.rs line 55). -/
def isEnded : Option Nat → Nat → Bool
  | some e, time => e < time
  | none, _ => false

/-- Method `Playback::read` (src/player.rs).  `time_end = time + buffer.len()`;
`NotYetStarted` when `time_end < start` (strict, as in the source), `Ended`
when the playback has a finite end `e` and `time > e` (strict).  Otherwise
the source computes `time.saturating_sub(start) / repetition_period`, which
panics when `repetition_period == 0` (modelled by `none`), and then runs the
repetition loop starting from the repetition whose index is that quotient. -/
def Playback.read (p : Playback) (time : Nat) (buffer : List ℚ) :
    Option (ReadResult × List ℚ) :=
  if time + buffer.length < p.start then some (.NotYetStarted, buffer)
  else if isEnded p.endTime time then some (.Ended, buffer)
  else if p.repetition_period = 0 then none
  else
    some (.Ok, p.readLoop time (time + buffer.length)
      (p.start + (time - p.start) / p.repetition_period * p.repetition_period) buffer)

/-- Playback exercised by the C1 counterexample: `start = 0`, a single
waveform sample `[1]` (length `L = 1`), `repetition_period = 1 = L`,
`repetition_count = Some 0`. -/
def singleShot : Playback := ⟨0, 1, some 0, [1]⟩

/-- C1 counterexample.  For the playback `start = 0`, waveform `[1]` of
length `L = 1`, `repetition_period = 1`, `repetition_count = Some 0`:
the window `[0, 2)` renders the waveform twice (the loop in
`Playback::read` has no repetition-count bound), and the window `[1, 2)` —
which begins at `L` — returns `Ok` and renders the waveform yet again,
rather than `Ended` as the claim states. -/
theorem playback_single_shot_cex :
    Playback.read singleShot 0 [0, 0] = some (ReadResult.Ok, [1, 1]) ∧
    Playback.read singleShot 1 [0] = some (ReadResult.Ok, [1]) := by
  constructor
  · simp [Playback.read, singleShot, isEnded, Playback.endTime]
    rw [Playback.readLoop]
    norm_num
    rw [Playback.readLoop]
    norm_num [Playback.read_sample, zipAdd]
    rw [Playback.readLoop]
    norm_num [Playback.read_sample, zipAdd]
  · simp [Playback.read, singleShot, isEnded, Playback.endTime]
    rw [Playback.readLoop]
    norm_num [Playback.read_sample, zipAdd]
    rw [Playback.readLoop]
    norm_num

/-- C1 (amended).  For a playback with `start = 0`, a single waveform of
length `L > 0`, `repetition_period = L` and `repetition_count = Some 0`,
`read` reports `Ended` exactly for windows beginning strictly after `L`
(`time > L`), and returns `Ok` for every other window; the repetition loop
is bounded only by the window end, never by `repetition_count`. -/
theorem playback_single_shot_ended_iff (samples : List ℚ) (time : Nat) (buffer : List ℚ)
    (hs : samples ≠ []) :
    (Playback.read ⟨0, samples.length, some 0, samples⟩ time buffer).map Prod.fst =
      if samples.length < time then some ReadResult.Ended else some ReadResult.Ok := by
  have hper : samples.length ≠ 0 := by simpa using hs
  rw [Playback.read]
  rw [if_neg (by simp)]
  by_cases hlt : samples.length < time
  · simp [Playback.endTime, isEnded, hlt]
  · simp [Playback.endTime, isEnded, hlt, hper]

/-- Witness for `playback_single_shot_ended_iff`: with waveform `[1]`
(`L = 1`) the window beginning at `time = 2 > L` reports `Ended`. -/
theorem playback_single_shot_ended_iff_witness :
    (Playback.read ⟨0, 1, some 0, [1]⟩ 2 [0]).map Prod.fst = some ReadResult.Ended := by
  have h := playback_single_shot_ended_iff [1] 2 [0] (by simp)
  simpa using h

/-- C2 counterexample.  For `start = 1` and the window `[0, 1)` (so
`time + buffer.len() = 1 ≤ start`), the claim demands `NotYetStarted`, but
the source's strict comparison `time_end < start` fails and `read` returns
`Ok` (the repetition loop then runs zero iterations). -/
theorem playback_notYetStarted_cex :
    Playback.read ⟨1, 1, some 0, [1]⟩ 0 [0] = some (ReadResult.Ok, [0]) ∧
    0 + [(0 : ℚ)].length ≤ 1 := by
  constructor
  · simp [Playback.read, isEnded, Playback.endTime]
    rw [Playback.readLoop]
    norm_num
  · simp

/-- C2 (amended).  `read` returns `NotYetStarted` exactly when the whole
window ends strictly before `start` (`time + buffer.len() < start`), and in
that case the buffer is returned unchanged. -/
theorem playback_notYetStarted_iff (p : Playback) (time : Nat) (buffer : List ℚ) :
    ((p.read time buffer).map Prod.fst = some ReadResult.NotYetStarted ↔
      time + buffer.length < p.start) ∧
    (time + buffer.length < p.start →
      p.read time buffer = some (ReadResult.NotYetStarted, buffer)) := by
  constructor
  · rw [Playback.read]
    split_ifs with h1 h2 h3 <;> simp [h1]
  · intro h
    rw [Playback.read, if_pos h]

/-- Witness for `playback_notYetStarted_iff`: a playback starting at 5 read
over the window `[0, 1)` is still pending and the buffer is untouched. -/
theorem playback_notYetStarted_iff_witness :
    Playback.read ⟨5, 0, none, [1]⟩ 0 [0] = some (ReadResult.NotYetStarted, [0]) :=
  (playback_notYetStarted_iff ⟨5, 0, none, [1]⟩ 0 [0]).2 (by norm_num)

/-- C4.  A playback with `repetition_period = 0` and unbounded
`repetition_count = None` — exactly what `Playback::new` yields — makes
`read` reach the division `time.saturating_sub(start) / repetition_period`
with a zero divisor (a Rust panic, modelled by `none`) on every window that
passes the `NotYetStarted` check; for `Playback::new` itself (`start = 0`)
that is every window.  No branch of the source guards this case. -/
theorem playback_zero_period_faults :
    (∀ (samples : List ℚ) (time : Nat) (buffer : List ℚ),
      (Playback.new samples).read time buffer = none) ∧
    (∀ (p : Playback) (time : Nat) (buffer : List ℚ),
      p.repetition_period = 0 → p.repetition_count = none →
      p.start ≤ time + buffer.length → p.read time buffer = none) := by
  constructor
  · intro samples time buffer
    simp [Playback.read, Playback.new, Playback.endTime, isEnded]
  · intro p time buffer hper hcnt hstart
    rw [Playback.read, if_neg (by omega)]
    simp [Playback.endTime, isEnded, hcnt, hper]

/-- Witness for `playback_zero_period_faults` at concrete inputs. -/
theorem playback_zero_period_faults_witness :
    (Playback.new [1]).read 0 [0] = none ∧
    Playback.read ⟨3, 0, none, [1]⟩ 5 [0] = none :=
  ⟨playback_zero_period_faults.1 [1] 0 [0],
   playback_zero_period_faults.2 ⟨3, 0, none, [1]⟩ 5 [0] rfl rfl (by norm_num)⟩

/-- C9.  A playback with unbounded `repetition_count = None` has no defined
end, so `read` never reports `Ended`, however large `time` grows (it can
still panic on a zero repetition period, but it cannot end). -/
theorem playback_unbounded_never_ended (p : Playback) (time : Nat) (buffer : List ℚ)
    (h : p.repetition_count = none) (res : ReadResult × List ℚ)
    (hr : p.read time buffer = some res) : res.1 ≠ ReadResult.Ended := by
  have he : p.endTime = none := by simp [Playback.endTime, h]
  rw [Playback.read, he] at hr
  simp only [isEnded] at hr
  split_ifs at hr with h1 h2 h3 <;>
    first
      | exact h2.elim
      | exact Option.noConfusion hr
      | (cases hr; simp)

/-- Witness for `playback_unbounded_never_ended`: an unbounded playback
read at `time = 1000000` yields a non-`Ended` result. -/
theorem playback_unbounded_never_ended_witness :
    (ReadResult.Ok, ([1] : List ℚ)).1 ≠ ReadResult.Ended := by
  refine playback_unbounded_never_ended ⟨0, 1, none, [1]⟩ 1000000 [0] rfl (.Ok, [1]) ?_
  simp [Playback.read, isEnded, Playback.endTime]
  rw [Playback.readLoop]
  norm_num [Playback.read_sample, zipAdd]
  rw [Playback.readLoop]
  norm_num

/-- Spec-side description (spec §4.3) of what one repetition at signed
offset `t = rep_time - time` contributes to destination index `j`: the
asset sample `samples[j - t]` when that source index is within the asset,
and `0` otherwise (clipping at both bounds, no wraparound). -/
def sampleContribution (samples : List ℚ) (t : Int) (j : Nat) : ℚ :=
  if 0 ≤ (j : Int) - t ∧ (j : Int) - t < samples.length then
    samples.getD ((j : Int) - t).toNat 0
  else 0

/-- Spec-side sum, over the repetitions enumerated by the read loop, of the
clipped contributions onto destination index `j`. -/
def contribSum (p : Playback) (time time_end rep_time j : Nat) : ℚ :=
  if p.repetition_period = 0 ∨ time_end ≤ rep_time then 0
  else
    sampleContribution p.samples ((rep_time : Int) - (time : Int)) j +
      contribSum p time time_end (rep_time + p.repetition_period) j
termination_by time_end - rep_time
decreasing_by omega

theorem zipAdd_length (d s : List ℚ) : (zipAdd d s).length = d.length := by
  induction d generalizing s with
  | nil => cases s <;> simp [zipAdd]
  | cons a d ih => cases s <;> simp [zipAdd, ih]

theorem zipAdd_getD (d s : List ℚ) (j : Nat) (h : j < d.length) :
    (zipAdd d s).getD j 0 = d.getD j 0 + s.getD j 0 := by
  induction d generalizing s j with
  | nil => simp at h
  | cons a d ih =>
    cases s with
    | nil => simp [zipAdd]
    | cons b s =>
      cases j with
      | zero => simp [zipAdd]
      | succ j =>
        simp only [zipAdd, List.getD_cons_succ]
        exact ih s j (by simpa using h)

theorem getD_drop (l : List ℚ) (i j : Nat) :
    (l.drop i).getD j 0 = l.getD (i + j) 0 := by
  simp [List.getD_eq_getElem?_getD, List.getElem?_drop]

theorem getD_append (l1 l2 : List ℚ) (j : Nat) :
    (l1 ++ l2).getD j 0 =
      if j < l1.length then l1.getD j 0 else l2.getD (j - l1.length) 0 := by
  rw [List.getD_eq_getElem?_getD, List.getElem?_append]
  split_ifs with h <;> rw [← List.getD_eq_getElem?_getD]

theorem getD_take (l : List ℚ) (i j : Nat) (h : j < i) :
    (l.take i).getD j 0 = l.getD j 0 := by
  rw [List.getD_eq_getElem?_getD, List.getElem?_take, if_pos h,
    ← List.getD_eq_getElem?_getD]

theorem read_sample_length (p : Playback) (t : Int) (out : List ℚ) :
    (p.read_sample t out).length = out.length := by
  rw [Playback.read_sample, List.length_append, List.length_take, zipAdd_length,
    List.length_drop]
  omega

/-- Pointwise effect of `Playback::read_sample`: destination index `j`
gains exactly the clipped contribution of the asset at offset `t`, and
nothing else. -/
theorem read_sample_getD (p : Playback) (t : Int) (out : List ℚ) (j : Nat)
    (hj : j < out.length) :
    (p.read_sample t out).getD j 0 = out.getD j 0 + sampleContribution p.samples t j := by
  rw [Playback.read_sample, getD_append]
  rw [List.length_take]
  by_cases hj2 : j < (min t (out.length : Int)).toNat
  · rw [if_pos (by omega), getD_take _ _ _ hj2]
    have hz : sampleContribution p.samples t j = 0 := by
      rw [sampleContribution, if_neg (by omega)]
    rw [hz, add_zero]
  · rw [if_neg (by omega)]
    have hmin : min ((min t (out.length : Int)).toNat) out.length =
        (min t (out.length : Int)).toNat := by omega
    rw [hmin]
    rw [zipAdd_getD _ _ _ (by rw [List.length_drop]; omega)]
    rw [getD_drop, getD_drop]
    rw [show (min t (out.length : Int)).toNat +
        (j - (min t (out.length : Int)).toNat) = j from by omega]
    congr 1
    rw [sampleContribution]
    split_ifs with hcond
    · rw [show (min (-t) (p.samples.length : Int)).toNat +
          (j - (min t (out.length : Int)).toNat) = ((j : Int) - t).toNat from by omega]
    · exact List.getD_eq_default _ _ (by omega)

/-- The read loop leaves the buffer length unchanged. -/
theorem readLoop_length (p : Playback) (time time_end rep_time : Nat) (buffer : List ℚ) :
    (p.readLoop time time_end rep_time buffer).length = buffer.length := by
  rw [Playback.readLoop]
  split_ifs with h
  · rfl
  · rw [readLoop_length, read_sample_length]
termination_by time_end - rep_time
decreasing_by omega

/-- The read loop adds exactly the sum of the enumerated repetitions'
clipped contributions to every index of the buffer. -/
theorem readLoop_getD (p : Playback) (time time_end rep_time : Nat) (buffer : List ℚ)
    (j : Nat) (hj : j < buffer.length) :
    (p.readLoop time time_end rep_time buffer).getD j 0 =
      buffer.getD j 0 + contribSum p time time_end rep_time j := by
  rw [Playback.readLoop, contribSum]
  split_ifs with h
  · rw [add_zero]
  · rw [readLoop_getD p time time_end (rep_time + p.repetition_period)
        (p.read_sample ((rep_time : Int) - (time : Int)) buffer) j
        (by rw [read_sample_length]; exact hj),
      read_sample_getD p ((rep_time : Int) - (time : Int)) buffer j hj]
    ring
termination_by time_end - rep_time
decreasing_by omega

/-- C3.  When `read` returns `Ok`, the buffer is updated purely additively:
its length is unchanged, index `j` becomes its previous value plus the sum
of the asset samples that the enumerated overlapping repetitions map onto
`j` (clipped at source and destination bounds, no wraparound), and any
index receiving no contribution keeps its exact previous value. -/
theorem playback_read_additive (p : Playback) (time : Nat) (buffer : List ℚ)
    (res : ReadResult × List ℚ) (hr : p.read time buffer = some res)
    (hok : res.1 = ReadResult.Ok) :
    res.2.length = buffer.length ∧
    (∀ j, j < buffer.length →
      res.2.getD j 0 = buffer.getD j 0 +
        contribSum p time (time + buffer.length)
          (p.start + (time - p.start) / p.repetition_period * p.repetition_period) j) ∧
    (∀ j, j < buffer.length →
      contribSum p time (time + buffer.length)
        (p.start + (time - p.start) / p.repetition_period * p.repetition_period) j = 0 →
      res.2.getD j 0 = buffer.getD j 0) := by
  rw [Playback.read] at hr
  by_cases h1 : time + buffer.length < p.start
  · rw [if_pos h1] at hr
    cases hr
    simp at hok
  · rw [if_neg h1] at hr
    by_cases h2 : isEnded p.endTime time = true
    · rw [if_pos h2] at hr
      cases hr
      simp at hok
    · rw [if_neg h2] at hr
      by_cases h3 : p.repetition_period = 0
      · rw [if_pos h3] at hr
        exact Option.noConfusion hr
      · rw [if_neg h3] at hr
        cases hr
        refine ⟨readLoop_length p time (time + buffer.length) _ buffer,
          fun j hj => readLoop_getD p time (time + buffer.length) _ buffer j hj,
          fun j hj hz => ?_⟩
        rw [readLoop_getD p time (time + buffer.length) _ buffer j hj, hz, add_zero]

/-- Witness for `playback_read_additive`: the playback `start = 0`,
period `1`, count `Some 0`, asset `[2]`, read over the window `[0, 1)`
against buffer `[5]`, turns the buffer into `[7] = [5 + 2]`. -/
theorem playback_read_additive_witness :
    ([7] : List ℚ).getD 0 0 =
      ([5] : List ℚ).getD 0 0 + contribSum ⟨0, 1, some 0, [2]⟩ 0 1 0 0 := by
  have hread : Playback.read ⟨0, 1, some 0, [2]⟩ 0 [5] = some (ReadResult.Ok, [7]) := by
    simp [Playback.read, isEnded, Playback.endTime]
    rw [Playback.readLoop]
    norm_num [Playback.read_sample, zipAdd]
    rw [Playback.readLoop]
    norm_num
  have h := playback_read_additive ⟨0, 1, some 0, [2]⟩ 0 [5] (ReadResult.Ok, [7]) hread rfl
  simpa using h.2.1 0 (by norm_num)

/-- Enum `PlayerCommand` (src/player.rs). -/
inductive PlayerCommand where
  | AddPlaybacks : List Playback → PlayerCommand
  | ClearPlaybacks : PlayerCommand
  | SetVolume : ℚ → PlayerCommand

/-- The state captured mutably by the render closure in `Player::start`
(src/player.rs lines 110-112): the active playback set, the sample clock,
and the linear volume.  The scratch buffer's contents need not be carried:
its used prefix is zero-filled on every callback. -/
structure PlayerState where
  playbacks : List Playback
  time : Nat
  volume : ℚ

/-- One step of the command drain loop (src/player.rs lines 119-134):
`AddPlaybacks` shifts each incoming start by the current clock and appends;
`ClearPlaybacks` empties the set; `SetVolume` replaces the gain. -/
def applyCommand (time : Nat) (acc : List Playback × ℚ) (cmd : PlayerCommand) :
    List Playback × ℚ :=
  match cmd with
  | .AddPlaybacks ps => (acc.1 ++ ps.map (fun p => { p with start := p.start + time }), acc.2)
  | .ClearPlaybacks => ([], acc.2)
  | .SetVolume v => (acc.1, v)

/-- The `playbacks.retain(...)` pass (src/player.rs lines 139-143): each
playback reads into the accumulating mono buffer in order; `Ended` results
are dropped, `Ok` and `NotYetStarted` are kept; a read panic (`none`)
aborts the whole callback. -/
def readAll : List Playback → Nat → List ℚ → Option (List Playback × List ℚ)
  | [], _, mono => some ([], mono)
  | p :: rest, time, mono =>
    match p.read time mono with
    | none => none
    | some (r, mono1) =>
      match readAll rest time mono1 with
      | none => none
      | some (kept, mono2) =>
        some ((if r = ReadResult.Ended then kept else p :: kept), mono2)

/-- Capacity of the preallocated scratch buffer
`vec![0.0f32; 2 << 14]` (src/player.rs line 114). -/
def tmpBufferLen : Nat := 2 <<< 14

/-- The channel expansion (src/player.rs lines 151-157): every output slot
`i` whose frame index `i / numChannels` has a mono sample receives that
sample; slots beyond the mono frames keep their previous contents. -/
def expand (mono : List ℚ) (numChannels : Nat) (data : List ℚ) : List ℚ :=
  data.mapIdx (fun i d => if i / numChannels < mono.length then mono.getD (i / numChannels) 0 else d)

/-- The render callback of `Player::start` (src/player.rs lines 117-158),
as a pure function of the captured state, the drained commands, the output
buffer supplied by the audio subsystem and the device channel count.
`softClip` stands for the transcendental per-sample map
`x ↦ tanh(volume * x)`; it is a parameter because `tanh` has no exact
executable embedding, and no claim under study depends on its values.
`none` models a panic: division by a zero channel count, slicing
`tmp_buffer[..n]` with `n` beyond its capacity (line 137), or a playback
read panic. -/
def renderCallback (softClip : ℚ → ℚ) (st : PlayerState) (cmds : List PlayerCommand)
    (data : List ℚ) (numChannels : Nat) : Option (PlayerState × List ℚ) :=
  if numChannels = 0 then none
  else
    let drained := cmds.foldl (applyCommand st.time) (st.playbacks, st.volume)
    if tmpBufferLen < data.length / numChannels then none
    else
      match readAll drained.1 st.time (List.replicate (data.length / numChannels) 0) with
      | none => none
      | some (kept, mono) =>
        some ({ playbacks := kept, time := st.time + data.length / numChannels,
                volume := drained.2 },
              expand (mono.map (fun x => softClip (drained.2 * x))) numChannels data)

/-- C5 counterexample.  A callback invocation with an output buffer of
65538 samples on a 1-channel device needs a 65538-sample mono window, which
overflows the fixed 32768-sample scratch buffer: the slice expression
`&mut tmp_buffer[..(data.len() / num_channels)]` panics, so the callback
does not complete (modelled by `none`) — even with no pending commands and
an empty playback set. -/
theorem renderCallback_overflow_cex :
    renderCallback (fun x => x) ⟨[], 0, 1⟩ [] (List.replicate 65538 0) 1 = none := by
  rw [renderCallback]
  norm_num [tmpBufferLen, List.foldl]
  intro h
  exact absurd h (by decide)

/-- Method `Playback::read` can only panic through the zero-divisor division; with
a nonzero repetition period it always returns a result. -/
theorem read_isSome_of_period_ne_zero (p : Playback) (time : Nat) (buffer : List ℚ)
    (h : p.repetition_period ≠ 0) : ∃ r, p.read time buffer = some r := by
  rw [Playback.read]
  by_cases h1 : time + buffer.length < p.start
  · rw [if_pos h1]
    exact ⟨_, rfl⟩
  · rw [if_neg h1]
    by_cases h2 : isEnded p.endTime time = true
    · rw [if_pos h2]
      exact ⟨_, rfl⟩
    · rw [if_neg h2, if_neg h]
      exact ⟨_, rfl⟩

/-- The retain pass completes whenever every active playback has a nonzero
repetition period. -/
theorem readAll_isSome (ps : List Playback) (time : Nat) (mono : List ℚ)
    (h : ∀ p ∈ ps, p.repetition_period ≠ 0) :
    ∃ r, readAll ps time mono = some r := by
  induction ps generalizing mono with
  | nil => exact ⟨_, rfl⟩
  | cons p rest ih =>
    obtain ⟨⟨r, m1⟩, hr⟩ :=
      read_isSome_of_period_ne_zero p time mono (h p (List.mem_cons_self p rest))
    obtain ⟨⟨kept, m2⟩, hrest⟩ := ih m1 (fun q hq => h q (List.mem_cons_of_mem p hq))
    exact ⟨((if r = ReadResult.Ended then kept else p :: kept), m2),
      by rw [readAll, hr]; simp [hrest]⟩

/-- Draining commands preserves the invariant that every active playback
has a nonzero repetition period, provided every added playback does: the
start shift `p.start + time` leaves the period untouched. -/
theorem drain_period_ne_zero (time : Nat) (cmds : List PlayerCommand)
    (acc : List Playback × ℚ)
    (hacc : ∀ p ∈ acc.1, p.repetition_period ≠ 0)
    (hcmds : ∀ ps, PlayerCommand.AddPlaybacks ps ∈ cmds →
      ∀ p ∈ ps, p.repetition_period ≠ 0) :
    ∀ p ∈ (cmds.foldl (applyCommand time) acc).1, p.repetition_period ≠ 0 := by
  induction cmds generalizing acc with
  | nil => simpa using hacc
  | cons c rest ih =>
    rw [List.foldl_cons]
    apply ih
    · cases c with
      | AddPlaybacks ps =>
        intro p hp
        simp only [applyCommand, List.mem_append, List.mem_map] at hp
        rcases hp with hp | ⟨q, hq, rfl⟩
        · exact hacc p hp
        · simpa using hcmds ps (List.mem_cons_self _ _) q hq
      | ClearPlaybacks =>
        intro p hp
        simp [applyCommand] at hp
      | SetVolume v =>
        intro p hp
        exact hacc p (by simpa [applyCommand] using hp)
    · intro ps hps p hp
      exact hcmds ps (List.mem_cons_of_mem _ hps) p hp

/-- C5 (amended).  The render callback completes (returns a successor state
and output buffer, never panicking) provided: the device channel count is
positive, the mono window `data.len() / num_channels` fits the fixed
32768-sample scratch buffer, and every playback — already active or carried
by a pending `AddPlaybacks` command — has a nonzero repetition period.
This holds for every soft-clip map, every command sequence and every
buffer contents; without those provisos the callback can panic
(`renderCallback_overflow_cex`). -/
theorem renderCallback_completes (softClip : ℚ → ℚ) (st : PlayerState)
    (cmds : List PlayerCommand) (data : List ℚ) (numChannels : Nat)
    (hch : numChannels ≠ 0)
    (hlen : data.length / numChannels ≤ tmpBufferLen)
    (hst : ∀ p ∈ st.playbacks, p.repetition_period ≠ 0)
    (hcmds : ∀ ps, PlayerCommand.AddPlaybacks ps ∈ cmds →
      ∀ p ∈ ps, p.repetition_period ≠ 0) :
    ∃ out, renderCallback softClip st cmds data numChannels = some out := by
  rw [renderCallback, if_neg hch]
  rw [if_neg (by omega)]
  obtain ⟨⟨kept, mono⟩, hread⟩ := readAll_isSome
    (cmds.foldl (applyCommand st.time) (st.playbacks, st.volume)).1 st.time
    (List.replicate (data.length / numChannels) 0)
    (drain_period_ne_zero st.time cmds (st.playbacks, st.volume) hst hcmds)
  rw [hread]
  exact ⟨_, rfl⟩

/-- Witness for `renderCallback_completes`: a 2-channel, 4-sample output
buffer, one pending `AddPlaybacks` command with a period-1 playback. -/
theorem renderCallback_completes_witness :
    ∃ out, renderCallback (fun x => x) ⟨[], 0, 1⟩
      [PlayerCommand.AddPlaybacks [⟨0, 1, none, [1]⟩]] [0, 0, 0, 0] 2 = some out := by
  refine renderCallback_completes (fun x => x) ⟨[], 0, 1⟩
    [PlayerCommand.AddPlaybacks [⟨0, 1, none, [1]⟩]] [0, 0, 0, 0] 2
    (by norm_num) (by decide) (by simp) ?_
  intro ps hps p hp
  simp only [List.mem_singleton] at hps
  cases hps
  simp only [List.mem_singleton] at hp
  subst hp
  norm_num

/-- Method `TapTempo::tap` (src/main.rs lines 132-150).  The struct's `last`
timestamp and `Instant::now()` exist only to measure the elapsed time
between taps, so the elapsed interval (`duration` in the source) is taken
as the input here; the state is the `taps` vector of accepted intervals.
The result's boolean records whether an estimate was produced
(`Some(60.0 / mean)`) or the outlier gate cleared the sequence (`None`).
The gate tests the last accepted interval `v` against
`v < duration * 0.5 || v > duration * 2.0`. -/
def TapTempo.tap (taps : List ℚ) (interval : ℚ) : List ℚ × Bool :=
  if (match taps.getLast? with
      | some v => decide (v < interval * (1/2) ∨ interval * 2 < v)
      | none => false) then
    ([], false)
  else
    (taps ++ [interval], true)

/-- Folding `TapTempo.tap` over a sequence of intervals, keeping the last
produced flag. -/
def TapTempo.tapSeq : List ℚ × Bool → List ℚ → List ℚ × Bool
  | st, [] => st
  | st, i :: rest => TapTempo.tapSeq (TapTempo.tap st.1 i) rest

/-- Function `geometric_mean` (src/main.rs lines 153-163): the fold computes the
product of the values and counts them; the result is
`product ^ (1 / n)`, embedded exactly over the reals (`powf` is
transcendental, so this definition is noncomputable by nature). -/
noncomputable def geometric_mean (values : List ℚ) : ℝ :=
  ((values.prod : ℚ) : ℝ) ^ ((1 : ℝ) / (values.length : ℝ))

/-- The estimate `Some(60.0 / mean)` returned by `TapTempo::tap` when the
gate passes (src/main.rs lines 147-148). -/
noncomputable def tapEstimate (taps : List ℚ) : ℝ := 60 / geometric_mean taps

/-- C6.  The tap-tempo gate and estimate: (1) if the sequence is non-empty
and its most recently accepted interval lies outside
`[interval * 0.5, interval * 2.0]`, tap clears the sequence and produces
no estimate; (2) otherwise it appends the interval and produces the
estimate `60 / geometric_mean(accepted intervals)`; (3) the interval
sequence `[0.5, 0.5, 0.5]` is fully accepted and its estimate is exactly
120 BPM; (4) `[0.5, 0.5, 2.0]` resets on the third tap with no estimate. -/
theorem tapTempo_gate_and_scenarios :
    (∀ (taps : List ℚ) (i v : ℚ), taps.getLast? = some v →
      (v < i * (1/2) ∨ i * 2 < v) → TapTempo.tap taps i = ([], false)) ∧
    (∀ (taps : List ℚ) (i : ℚ),
      (∀ v, taps.getLast? = some v → i * (1/2) ≤ v ∧ v ≤ i * 2) →
      TapTempo.tap taps i = (taps ++ [i], true)) ∧
    (TapTempo.tapSeq ([], false) [1/2, 1/2, 1/2] = ([1/2, 1/2, 1/2], true) ∧
      tapEstimate [1/2, 1/2, 1/2] = 120) ∧
    TapTempo.tapSeq ([], false) [1/2, 1/2, 2] = ([], false) := by
  refine ⟨?_, ?_, ⟨?_, ?_⟩, ?_⟩
  · intro taps i v h hgate
    rw [TapTempo.tap]
    rcases hgate with hg | hg <;> simp [h, hg] <;> intro h2 <;> linarith
  · intro taps i hin
    rw [TapTempo.tap]
    cases h : taps.getLast? with
    | none => simp
    | some v =>
      have hv := hin v h
      rw [if_neg]
      simp only [decide_eq_true_eq]
      push_neg
      exact ⟨by linarith [hv.1], by linarith [hv.2]⟩
  · norm_num [TapTempo.tapSeq, TapTempo.tap]
  · rw [tapEstimate, geometric_mean]
    have hprod : (([1/2, 1/2, 1/2] : List ℚ).prod : ℚ) = 1/8 := by norm_num
    have hlen : (([1/2, 1/2, 1/2] : List ℚ).length : ℝ) = ((3:ℕ) : ℝ) := by norm_num
    rw [hprod, hlen]
    have hgm : (((1:ℚ)/8 : ℚ) : ℝ) ^ ((1:ℝ)/((3:ℕ):ℝ)) = 1/2 := by
      have h8 : (((1:ℚ)/8 : ℚ) : ℝ) = ((1:ℝ)/2) ^ (3:ℕ) := by norm_num
      rw [h8, show ((1:ℝ)/((3:ℕ):ℝ)) = (((3:ℕ)):ℝ)⁻¹ by norm_num]
      exact Real.pow_rpow_inv_natCast (by norm_num) (by norm_num)
    rw [hgm]
    norm_num
  · norm_num [TapTempo.tapSeq, TapTempo.tap]

/-- Witness for `tapTempo_gate_and_scenarios`: the gate clauses applied at
concrete inputs — a tap of 2 s after an accepted interval of 0.5 s resets
(2.0 is more than double 0.5), while a tap of 0.6 s is accepted. -/
theorem tapTempo_gate_and_scenarios_witness :
    TapTempo.tap [(1:ℚ)/2] 2 = ([], false) ∧
    TapTempo.tap [(1:ℚ)/2] (3/5) = ([1/2, 3/5], true) := by
  constructor
  · exact tapTempo_gate_and_scenarios.1 [1/2] 2 (1/2) rfl (Or.inl (by norm_num))
  · exact tapTempo_gate_and_scenarios.2.1 [1/2] (3/5)
      (fun v hv => by
        rw [show v = 1/2 by simpa using hv.symm]
        norm_num)

/-- C10.  The very first call to `tap` after `TapTempo::new` never resets:
with an empty accepted-interval sequence `taps.last()` is `None`, the
`map_or(false, ...)` gate is vacuously passed, the elapsed interval since
construction is appended, and the estimate `60 / interval` is returned
(the geometric mean of a singleton is the interval itself). -/
theorem tapTempo_first_tap (i : ℚ) :
    TapTempo.tap [] i = ([i], true) ∧
    (0 < i → tapEstimate [i] = 60 / (i : ℝ)) := by
  constructor
  · rw [TapTempo.tap]
    simp
  · intro hi
    rw [tapEstimate, geometric_mean]
    have hlen : (([i] : List ℚ).length : ℝ) = 1 := by norm_num
    have hprod : (([i] : List ℚ).prod : ℚ) = i := by simp
    rw [hprod, hlen]
    norm_num

/-- Witness for `tapTempo_first_tap`: a first tap 0.5 s after construction
is accepted and yields the estimate 120 BPM. -/
theorem tapTempo_first_tap_witness :
    TapTempo.tap [] ((1:ℚ)/2) = ([1/2], true) ∧ tapEstimate [(1:ℚ)/2] = 120 := by
  have h := tapTempo_first_tap (1/2)
  refine ⟨h.1, ?_⟩
  rw [h.2 (by norm_num)]
  norm_num

/-- The sample count of `generate_click` (src/main.rs line 170):
`(duration * sample_rate as f64) as usize`.  The `as usize` cast of a
nonnegative float truncates toward zero (and clamps negatives to zero),
which is exactly `Nat.floor` on the rationals. -/
def clickSampleCount (sample_rate : Nat) (duration : ℚ) : Nat :=
  ⌊duration * (sample_rate : ℚ)⌋₊

/-- Constant `decay_factor` of `generate_click` (src/main.rs lines 173-174):
`minimum_volume.powf(1.0 / n)` with `minimum_volume = 0.01`. -/
noncomputable def decay_factor (n : Nat) : ℝ :=
  ((1:ℝ)/100) ^ ((1:ℝ)/(n : ℝ))

/-- The envelope multiplying sample `i` of a click of `n` samples
(src/main.rs lines 176-183): it starts at `1.0` and is multiplied by
`decay_factor` after each sample is pushed, so sample `i` sees
`decay_factor ^ i`. -/
noncomputable def clickEnvelope (n i : Nat) : ℝ :=
  decay_factor n ^ i

/-- Function `generate_click` (src/main.rs lines 165-187): sample `i` is
`gain * envelope(i) * sin((TAU * i / sample_rate) * freq)`. -/
noncomputable def generate_click (sample_rate : Nat) (duration : ℚ) (freq gain : ℝ) :
    List ℝ :=
  (List.range (clickSampleCount sample_rate duration)).map (fun i =>
    gain * clickEnvelope (clickSampleCount sample_rate duration) i *
      Real.sin ((2 * Real.pi * (i : ℝ) / (sample_rate : ℝ)) * freq))

/-- C7 counterexample.  For a click of `n = 2` samples the envelope ratio
between the last and first sample is `0.01 ^ (1/2) = 0.1`, not `0.01`: the
envelope is multiplied by the decay factor only after each sample is
emitted, so the last emitted sample carries `decay ^ (n-1)`, not
`decay ^ n`. -/
theorem click_envelope_cex :
    clickEnvelope 2 1 / clickEnvelope 2 0 = 1/10 ∧ ((1:ℝ)/10) ≠ 1/100 := by
  constructor
  · rw [clickEnvelope, clickEnvelope, pow_zero, pow_one, div_one, decay_factor]
    have h : ((1:ℝ)/100) = ((1:ℝ)/10) ^ (2:ℕ) := by norm_num
    rw [h, show ((1:ℝ)/((2:Nat):ℝ)) = (((2:ℕ)):ℝ)⁻¹ by norm_num]
    exact Real.pow_rpow_inv_natCast (by norm_num) (by norm_num)
  · norm_num

/-- C7 (amended).  For a click of `n > 0` samples the first sample's
envelope is `1`, the ratio between the last and first sample's envelope is
`0.01 ^ ((n-1)/n)` — approaching but never equal to the `0.01` floor for
`n > 1` — and it is the decay applied `n` times (one step past the last
sample) that reaches the floor exactly: `decay_factor n ^ n = 0.01`. -/
theorem click_envelope_decay (n : Nat) (hn : 0 < n) :
    clickEnvelope n 0 = 1 ∧
    clickEnvelope n (n-1) / clickEnvelope n 0 = ((1:ℝ)/100) ^ (((n:ℝ) - 1)/(n:ℝ)) ∧
    decay_factor n ^ n = 1/100 := by
  have hne : (n:ℝ) ≠ 0 := by
    exact_mod_cast Nat.pos_iff_ne_zero.mp hn
  refine ⟨by rw [clickEnvelope, pow_zero], ?_, ?_⟩
  · rw [clickEnvelope, clickEnvelope, pow_zero, div_one, decay_factor]
    rw [← Real.rpow_natCast (((1:ℝ)/100) ^ ((1:ℝ)/(n:ℝ))) (n-1)]
    rw [← Real.rpow_mul (by norm_num)]
    congr 1
    have h1 : ((n - 1 : ℕ) : ℝ) = (n : ℝ) - 1 := by
      have h2 : (1:ℕ) ≤ n := hn
      push_cast [h2]
      ring
    rw [h1]
    field_simp
  · rw [decay_factor, one_div ((n:ℝ))]
    exact Real.rpow_inv_natCast_pow (by norm_num) (Nat.pos_iff_ne_zero.mp hn)

/-- Witness for `click_envelope_decay` at `n = 4`. -/
theorem click_envelope_decay_witness :
    clickEnvelope 4 0 = 1 ∧
    clickEnvelope 4 3 / clickEnvelope 4 0 = ((1:ℝ)/100) ^ ((3:ℝ)/4) ∧
    decay_factor 4 ^ 4 = 1/100 := by
  have h := click_envelope_decay 4 (by norm_num)
  refine ⟨h.1, ?_, h.2.2⟩
  have h2 := h.2.1
  norm_num at h2
  simpa using h2

/-- C8 counterexample.  At sample rate 2 and duration 0.75 s the product
`duration * sample_rate = 1.5` truncates to 1 sample, while the claimed
`round` would give 2. -/
theorem click_sample_count_cex :
    (generate_click 2 (3/4) 440 1).length = 1 ∧
    round ((3/4 : ℚ) * 2) = 2 ∧ (1 : Nat) ≠ 2 := by
  refine ⟨?_, ?_, by norm_num⟩
  · rw [generate_click, List.length_map, List.length_range, clickSampleCount]
    norm_num
    rw [Nat.floor_eq_iff (by norm_num)]
    norm_num
  · rw [round_eq]
    norm_num

/-- C8 (amended).  The number of samples returned by `generate_click`
equals `duration * sample_rate` truncated toward zero (`Nat.floor`), not
rounded: the count `n` satisfies `n ≤ duration * sample_rate < n + 1`. -/
theorem click_sample_count (sample_rate : Nat) (duration : ℚ) (freq gain : ℝ)
    (hd : 0 ≤ duration) :
    (generate_click sample_rate duration freq gain).length =
      ⌊duration * (sample_rate : ℚ)⌋₊ ∧
    ((⌊duration * (sample_rate : ℚ)⌋₊ : ℚ) ≤ duration * sample_rate ∧
      duration * (sample_rate : ℚ) <
        (⌊duration * (sample_rate : ℚ)⌋₊ : ℚ) + 1) := by
  refine ⟨?_, ?_, Nat.lt_floor_add_one _⟩
  · rw [generate_click, List.length_map, List.length_range, clickSampleCount]
  · exact Nat.floor_le (mul_nonneg hd (by positivity))

/-- Witness for `click_sample_count` at sample rate 2 and duration 0.75 s:
the click has exactly 1 sample and `1 ≤ 1.5 < 2`. -/
theorem click_sample_count_witness :
    (generate_click 2 (3/4) 440 1).length = ⌊(3/4 : ℚ) * (2:ℚ)⌋₊ ∧
    ((⌊(3/4 : ℚ) * (2:ℚ)⌋₊ : ℚ) ≤ (3/4 : ℚ) * 2 ∧
      (3/4 : ℚ) * (2:ℚ) < (⌊(3/4 : ℚ) * (2:ℚ)⌋₊ : ℚ) + 1) := by
  have h := click_sample_count 2 (3/4) 440 1 (by norm_num)
  simpa using h
